import Mathlib

/-!
Verification of the per-region operator-registry reconciliation logic of
manage-cyhy-ops (src/manage_cyhy_ops/manageoperators.py, the module that
cli.py imports).

Python strings are modelled as lists of characters; the SSM parameter store
of one region is an association list from key to value.  Remote calls
(get_parameter / put_parameter / delete_parameter) may fail with a hard
store-layer error (a botocore ClientError that is not one of the anticipated
ParameterNotFound / ParameterAlreadyExists subtypes); these environment
failures are injected through an explicit fault schedule, one entry consumed
per remote call, with the default being normal behaviour.

An operation in the Python code can finish in one of two ways: return an
integer status, or escape with an uncaught exception (the code has a path
that evaluates the local variable update_msg before any assignment to it,
raising UnboundLocalError).  Both outcomes are represented by PyResult.
-/

namespace CyhyOps

/-- Python `str`, modelled as a list of characters. -/
abbrev PyStr := List Char

/-- One region's SSM parameter store: an association list key ↦ value. -/
abbrev Store := List (PyStr × PyStr)

/-- Module constant SSM_SSH_KEY_PREFIX from manageoperators.py. -/
def SSM_SSH_KEY_PFX : PyStr := "/test/ssh/public_keys/".data

/-- Module constant SSM_CYHY_OPS_USERNAMES from manageoperators.py. -/
def SSM_CYHY_OPS_USERNAMES : PyStr := "/test/cyhy/ops/users".data

/-- Look a key up in a region's store. -/
def storeGet : Store → PyStr → Option PyStr
  | [], _ => none
  | (k1, v) :: rest, k => if k1 = k then some v else storeGet rest k

/-- Write a key (replacing any existing value) in a region's store. -/
def storePut : Store → PyStr → PyStr → Store
  | [], k, v => [(k, v)]
  | (k1, v1) :: rest, k, v =>
    if k1 = k then (k, v) :: rest else (k1, v1) :: storePut rest k v

/-- Delete a key from a region's store. -/
def storeDel : Store → PyStr → Store
  | [], _ => []
  | (k1, v1) :: rest, k =>
    if k1 = k then storeDel rest k else (k1, v1) :: storeDel rest k

/-- Helper for Python `str.split(sep)` with a one-character separator:
returns the first field and the list of remaining fields. -/
def pySplitNE (sep : Char) : List Char → List Char × List (List Char)
  | [] => ([], [])
  | c :: rest =>
    let r := pySplitNE sep rest
    if c = sep then ([], r.1 :: r.2) else (c :: r.1, r.2)

/-- Python `s.split(sep)` for a one-character separator.  In particular the
empty string splits into the one-element list containing the empty string,
exactly as in Python. -/
def pySplit (sep : Char) (s : List Char) : List (List Char) :=
  (pySplitNE sep s).1 :: (pySplitNE sep s).2

/-- Python `sep.join(words)` for a one-character separator. -/
def pyJoin (sep : Char) : List (List Char) → List Char
  | [] => []
  | [w] => w
  | w :: ws => w ++ sep :: pyJoin sep ws

/-- Boolean membership in a list, Python's `in`. -/
def memB [DecidableEq α] (a : α) : List α → Bool
  | [] => false
  | b :: l => if a = b then true else memB a l

/-- Boolean no-duplicates check on a list. -/
def nodupB [DecidableEq α] : List α → Bool
  | [] => true
  | a :: l => !(memB a l) && nodupB l

/-- One remote call's environment behaviour: either the store responds
normally, or the call raises a hard store-layer error (a ClientError other
than the anticipated ParameterNotFound / ParameterAlreadyExists). -/
inductive Fault
  | ok
  | err
deriving DecidableEq, Repr

/-- Outcome of client.get_parameter. -/
inductive GetRes
  | found (v : PyStr)
  | notFound
  | clientError
deriving DecidableEq, Repr

/-- Outcome of client.put_parameter. -/
inductive PutRes
  | ok
  | alreadyExists
  | clientError
deriving DecidableEq, Repr

/-- Outcome of client.delete_parameter. -/
inductive DelRes
  | ok
  | notFound
  | clientError
deriving DecidableEq, Repr

/-- How a Python call finishes: a returned integer status, or an uncaught
UnboundLocalError escaping the function. -/
inductive PyResult
  | ret (code : Nat)
  | unboundLocal
deriving DecidableEq, Repr

instance : DecidableEq (List (String × Store)) := instDecidableEqList

instance : DecidableEq (PyResult × List (String × Store) × List Fault) :=
  instDecidableEqProd

/-- Normal-behaviour outcome of get_parameter against the store. -/
def getOutcome (s : Store) (key : PyStr) : GetRes :=
  match storeGet s key with
  | some v => GetRes.found v
  | none => GetRes.notFound

/-- Normal-behaviour outcome of put_parameter against the store:
ParameterAlreadyExists when the key is present and Overwrite is false,
otherwise the value is written. -/
def putOutcome (s : Store) (key v : PyStr) (overwrite : Bool) : PutRes × Store :=
  if !overwrite && (storeGet s key).isSome then (PutRes.alreadyExists, s)
  else (PutRes.ok, storePut s key v)

/-- Normal-behaviour outcome of delete_parameter against the store. -/
def delOutcome (s : Store) (key : PyStr) : DelRes × Store :=
  match storeGet s key with
  | some _ => (DelRes.ok, storeDel s key)
  | none => (DelRes.notFound, s)

/-- client.get_parameter with fault injection: consumes one fault entry. -/
def ssmGet (s : Store) (key : PyStr) : List Fault → GetRes × List Fault
  | Fault.err :: fs => (GetRes.clientError, fs)
  | Fault.ok :: fs => (getOutcome s key, fs)
  | [] => (getOutcome s key, [])

/-- client.put_parameter with fault injection: consumes one fault entry. -/
def ssmPut (s : Store) (key v : PyStr) (overwrite : Bool) :
    List Fault → PutRes × Store × List Fault
  | Fault.err :: fs => (PutRes.clientError, s, fs)
  | Fault.ok :: fs =>
    match putOutcome s key v overwrite with
    | (r, s1) => (r, s1, fs)
  | [] =>
    match putOutcome s key v overwrite with
    | (r, s1) => (r, s1, [])

/-- client.delete_parameter with fault injection: consumes one fault entry. -/
def ssmDelete (s : Store) (key : PyStr) : List Fault → DelRes × Store × List Fault
  | Fault.err :: fs => (DelRes.clientError, s, fs)
  | Fault.ok :: fs =>
    match delOutcome s key with
    | (r, s1) => (r, s1, fs)
  | [] =>
    match delOutcome s key with
    | (r, s1) => (r, s1, [])

/-- The in-memory roster edit of update_cyhy_ops_users (manageoperators.py
lines 55-72).  Returns the edited user list together with whether the local
variable update_msg was assigned on this path (it is assigned exactly when
the list was actually changed). -/
def reconcile (users0 : List PyStr) (username : PyStr) (remove : Bool) :
    List PyStr × Bool :=
  if remove then
    if memB username users0 then (users0.erase username, true)
    else (users0, false)
  else
    if memB username users0 then (users0, false)
    else (users0 ++ [username], true)

/-- The write-back phase of update_cyhy_ops_users (manageoperators.py lines
74-114): when the edited list is empty the roster parameter is deleted (any
ClientError there, ParameterNotFound included, yields status 1); otherwise
the comma-join of the list is written back with Overwrite=True, and on a
successful put the code evaluates update_msg inside logging.info — if
update_msg was never assigned this raises UnboundLocalError. -/
def writeBack (store : Store) (users : List PyStr) (msgBound : Bool)
    (fs : List Fault) : PyResult × Store × List Fault :=
  if users.length = 0 then
    match ssmDelete store SSM_CYHY_OPS_USERNAMES fs with
    | (DelRes.ok, s1, fs1) => (PyResult.ret 0, s1, fs1)
    | (DelRes.notFound, s1, fs1) => (PyResult.ret 1, s1, fs1)
    | (DelRes.clientError, s1, fs1) => (PyResult.ret 1, s1, fs1)
  else
    match ssmPut store SSM_CYHY_OPS_USERNAMES (pyJoin ',' users) true fs with
    | (PutRes.ok, s1, fs1) =>
      if msgBound then (PyResult.ret 0, s1, fs1)
      else (PyResult.unboundLocal, s1, fs1)
    | (PutRes.alreadyExists, s1, fs1) => (PyResult.ret 1, s1, fs1)
    | (PutRes.clientError, s1, fs1) => (PyResult.ret 1, s1, fs1)

/-- The body of update_cyhy_ops_users after a get_parameter call that did
not raise a hard error: parse the roster (absent key → warning, empty
list), edit it, write it back. -/
def updateCore (store : Store) (username : PyStr) (remove : Bool)
    (fs1 : List Fault) : PyResult × Store × List Fault :=
  match getOutcome store SSM_CYHY_OPS_USERNAMES with
  | GetRes.clientError => (PyResult.ret 1, store, fs1)
  | GetRes.found v =>
    writeBack store (reconcile (pySplit ',' v) username remove).1
      (reconcile (pySplit ',' v) username remove).2 fs1
  | GetRes.notFound =>
    writeBack store (reconcile [] username remove).1
      (reconcile [] username remove).2 fs1

/-- update_cyhy_ops_users (manageoperators.py lines 32-114) for one region:
fetch the roster (absent key → warning, empty list; hard error → return 1),
edit the list, then write back. -/
def update_cyhy_ops_users (store : Store) (username : PyStr) (remove : Bool) :
    List Fault → PyResult × Store × List Fault
  | Fault.err :: fs1 => (PyResult.ret 1, store, fs1)
  | Fault.ok :: fs1 => updateCore store username remove fs1
  | [] => updateCore store username remove []

/-- The integer code of a normal return (used to model Python's
`ret = self.update_cyhy_ops_users(...)` binding; only read on the
normal-return path). -/
def retCode : PyResult → Nat
  | PyResult.ret c => c
  | PyResult.unboundLocal => 0

/-- add_user (manageoperators.py lines 116-157), iterating the region list:
write the SSH key (already-exists → warnings and proceed; hard error →
return 1 immediately, remaining regions not attempted), then reconcile the
roster, folding its status into return_value. -/
def add_user_go (username ssh_key : PyStr) (overwrite : Bool) :
    List (String × Store) → List Fault → Nat →
      PyResult × List (String × Store) × List Fault
  | [], fs, rv => (PyResult.ret rv, [], fs)
  | (region, store) :: rest, fs, rv =>
    let p := ssmPut store (SSM_SSH_KEY_PFX ++ username) ssh_key overwrite fs
    if p.1 = PutRes.clientError then
      (PyResult.ret 1, (region, p.2.1) :: rest, p.2.2)
    else
      let r := update_cyhy_ops_users p.2.1 username false p.2.2
      if r.1 = PyResult.unboundLocal then
        (PyResult.unboundLocal, (region, r.2.1) :: rest, r.2.2)
      else
        let c := retCode r.1
        let rec1 := add_user_go username ssh_key overwrite rest r.2.2
          (if c ≠ 0 then c else rv)
        (rec1.1, (region, r.2.1) :: rec1.2.1, rec1.2.2)

/-- add_user entry point (return_value starts at 0). -/
def add_user (username ssh_key : PyStr) (overwrite : Bool)
    (regions : List (String × Store)) (fs : List Fault) :
    PyResult × List (String × Store) × List Fault :=
  add_user_go username ssh_key overwrite regions fs 0

/-- The optional credential deletion of remove_user (manageoperators.py
lines 165-181): when full is set, delete the SSH-key parameter; not-found is
a warning, a hard error makes remove_user return 1 immediately.  The Bool
result reports that hard failure. -/
def fullDeleteStep (full : Bool) (username : PyStr) (store : Store)
    (fs : List Fault) : Bool × Store × List Fault :=
  if full then
    match ssmDelete store (SSM_SSH_KEY_PFX ++ username) fs with
    | (DelRes.clientError, s1, fs1) => (true, s1, fs1)
    | (DelRes.ok, s1, fs1) => (false, s1, fs1)
    | (DelRes.notFound, s1, fs1) => (false, s1, fs1)
  else (false, store, fs)

/-- remove_user (manageoperators.py lines 159-186), iterating the region
list. -/
def remove_user_go (username : PyStr) (full : Bool) :
    List (String × Store) → List Fault → Nat →
      PyResult × List (String × Store) × List Fault
  | [], fs, rv => (PyResult.ret rv, [], fs)
  | (region, store) :: rest, fs, rv =>
    let d := fullDeleteStep full username store fs
    if d.1 then
      (PyResult.ret 1, (region, d.2.1) :: rest, d.2.2)
    else
      let r := update_cyhy_ops_users d.2.1 username true d.2.2
      if r.1 = PyResult.unboundLocal then
        (PyResult.unboundLocal, (region, r.2.1) :: rest, r.2.2)
      else
        let c := retCode r.1
        let rec1 := remove_user_go username full rest r.2.2
          (if c ≠ 0 then c else rv)
        (rec1.1, (region, r.2.1) :: rec1.2.1, rec1.2.2)

/-- remove_user entry point (return_value starts at 0). -/
def remove_user (username : PyStr) (full : Bool)
    (regions : List (String × Store)) (fs : List Fault) :
    PyResult × List (String × Store) × List Fault :=
  remove_user_go username full regions fs 0

/-- check_user (manageoperators.py lines 188-231), iterating the region
list: two get_parameter calls per region (SSH key, then roster); not-found
on either is only logged, a hard error on either makes check_user return 1
immediately; otherwise 0 after the last region. -/
def check_user (username : PyStr) :
    List (String × Store) → List Fault →
      PyResult × List (String × Store) × List Fault
  | [], fs => (PyResult.ret 0, [], fs)
  | (region, store) :: rest, fs =>
    let g1 := ssmGet store (SSM_SSH_KEY_PFX ++ username) fs
    if g1.1 = GetRes.clientError then
      (PyResult.ret 1, (region, store) :: rest, g1.2)
    else
      let g2 := ssmGet store SSM_CYHY_OPS_USERNAMES g1.2
      if g2.1 = GetRes.clientError then
        (PyResult.ret 1, (region, store) :: rest, g2.2)
      else
        let rec1 := check_user username rest g2.2
        (rec1.1, (region, store) :: rec1.2.1, rec1.2.2)

/-- Lexicographic less-or-equal on character lists (ascending order of
usernames, as the spec's sort invariant reads it). -/
def lexLe : PyStr → PyStr → Bool
  | [], _ => true
  | _ :: _, [] => false
  | a :: as1, b :: bs1 =>
    if a < b then true else if a = b then lexLe as1 bs1 else false

/-- A list of usernames is sorted ascending. -/
def sortedAscB : List PyStr → Bool
  | [] => true
  | [_] => true
  | a :: b :: t => lexLe a b && sortedAscB (b :: t)

/-- Well-formedness of one region's persisted roster: either the roster key
is absent, or its comma-split contains no duplicates. -/
def rosterWF (s : Store) : Bool :=
  match storeGet s SSM_CYHY_OPS_USERNAMES with
  | none => true
  | some v => nodupB (pySplit ',' v)

/-- Every region's roster is well-formed. -/
def allWF : List (String × Store) → Bool
  | [] => true
  | (_, s) :: rest => rosterWF s && allWF rest

/-- The roster of the first region in a region list (used to state facts
about single-region runs). -/
def storeOf : List (String × Store) → Store
  | [] => []
  | (_, s) :: _ => s

/-- The parsed roster of one region's store: the comma-split of the roster
value when the key is present, the empty list when it is absent. -/
def rosterList (s : Store) : List PyStr :=
  match storeGet s SSM_CYHY_OPS_USERNAMES with
  | some v => pySplit ',' v
  | none => []

/-- One top-level operation of the manager, as driven by the CLI. -/
inductive Op
  | addOp (username ssh_key : PyStr) (overwrite : Bool)
  | removeOp (username : PyStr) (full : Bool)

/-- The username an operation is about. -/
def Op.username : Op → PyStr
  | .addOp u _ _ => u
  | .removeOp u _ => u

/-- Apply one operation to the region list under a fault schedule. -/
def applyOp (op : Op) (regions : List (String × Store)) (fs : List Fault) :
    PyResult × List (String × Store) × List Fault :=
  match op with
  | .addOp u k ow => add_user u k ow regions fs
  | .removeOp u full => remove_user u full regions fs

/-- Run a sequence of operations, each with its own fault schedule, starting
from a region list; returns the final region stores. -/
def runOps : List (Op × List Fault) → List (String × Store) → List (String × Store)
  | [], regions => regions
  | (op, fs) :: rest, regions => runOps rest (applyOp op regions fs).2.1

theorem memB_iff [DecidableEq α] (a : α) (l : List α) : memB a l = true ↔ a ∈ l := by
  induction l with
  | nil => simp [memB]
  | cons b t ih =>
    by_cases h : a = b
    · subst h; simp [memB]
    · simp [memB, h, ih]

theorem memB_false_iff [DecidableEq α] (a : α) (l : List α) :
    memB a l = false ↔ a ∉ l := by
  rw [← memB_iff a l]
  cases memB a l <;> simp

theorem nodupB_iff [DecidableEq α] (l : List α) : nodupB l = true ↔ l.Nodup := by
  induction l with
  | nil => simp [nodupB]
  | cons a t ih =>
    simp only [nodupB, Bool.and_eq_true, Bool.not_eq_true', List.nodup_cons]
    rw [memB_false_iff, ih]

theorem pySplitNE_sep_not_mem (sep : Char) (s : List Char) :
    sep ∉ (pySplitNE sep s).1 ∧ ∀ w ∈ (pySplitNE sep s).2, sep ∉ w := by
  induction s with
  | nil => simp [pySplitNE]
  | cons c rest ih =>
    by_cases h : c = sep
    · subst h
      simp only [pySplitNE, if_pos rfl]
      refine ⟨by simp, ?_⟩
      intro w hw
      rcases List.mem_cons.mp hw with h1 | h1
      · subst h1; exact ih.1
      · exact ih.2 w h1
    · simp only [pySplitNE, if_neg h]
      refine ⟨?_, ih.2⟩
      intro hc
      rcases List.mem_cons.mp hc with h1 | h1
      · exact h h1.symm
      · exact ih.1 h1

theorem pySplit_sep_not_mem (sep : Char) (s : List Char) :
    ∀ w ∈ pySplit sep s, sep ∉ w := by
  intro w hw
  rcases List.mem_cons.mp hw with h1 | h1
  · subst h1; exact (pySplitNE_sep_not_mem sep s).1
  · exact (pySplitNE_sep_not_mem sep s).2 w h1

theorem pySplitNE_no_sep (sep : Char) (w : List Char) (h : sep ∉ w) :
    pySplitNE sep w = (w, []) := by
  induction w with
  | nil => rfl
  | cons c rest ih =>
    have hc : c ≠ sep := fun hc => h (hc ▸ List.mem_cons_self c rest)
    have hr : sep ∉ rest := fun hr => h (List.mem_cons_of_mem c hr)
    simp [pySplitNE, if_neg hc, ih hr]

theorem pySplit_no_sep (sep : Char) (w : List Char) (h : sep ∉ w) :
    pySplit sep w = [w] := by
  simp [pySplit, pySplitNE_no_sep sep w h]

theorem pySplitNE_append_sep (sep : Char) (w t : List Char) (h : sep ∉ w) :
    pySplitNE sep (w ++ sep :: t) = (w, pySplit sep t) := by
  induction w with
  | nil => simp [pySplitNE, pySplit]
  | cons c rest ih =>
    have hc : c ≠ sep := fun hc => h (hc ▸ List.mem_cons_self c rest)
    have hr : sep ∉ rest := fun hr => h (List.mem_cons_of_mem c hr)
    simp [pySplitNE, if_neg hc, ih hr]

theorem pySplit_append_sep (sep : Char) (w t : List Char) (h : sep ∉ w) :
    pySplit sep (w ++ sep :: t) = w :: pySplit sep t := by
  simp [pySplit, pySplitNE_append_sep sep w t h]

theorem pySplit_pyJoin (sep : Char) :
    ∀ L : List (List Char), L ≠ [] → (∀ w ∈ L, sep ∉ w) →
      pySplit sep (pyJoin sep L) = L
  | [], h, _ => absurd rfl h
  | [w], _, hw => by
    simpa [pyJoin] using pySplit_no_sep sep w (hw w (List.mem_singleton_self w))
  | w :: w1 :: ws, _, hw => by
    have hsep : sep ∉ w := hw w (List.mem_cons_self _ _)
    have hrest : ∀ x ∈ w1 :: ws, sep ∉ x := fun x hx =>
      hw x (List.mem_cons_of_mem w hx)
    calc pySplit sep (pyJoin sep (w :: w1 :: ws))
        = pySplit sep (w ++ sep :: pyJoin sep (w1 :: ws)) := rfl
      _ = w :: pySplit sep (pyJoin sep (w1 :: ws)) :=
          pySplit_append_sep sep w _ hsep
      _ = w :: w1 :: ws := by
          rw [pySplit_pyJoin sep (w1 :: ws) (by simp) hrest]

theorem storeGet_storePut_self (s : Store) (k v : PyStr) :
    storeGet (storePut s k v) k = some v := by
  induction s with
  | nil => simp [storePut, storeGet]
  | cons p rest ih =>
    by_cases h : p.1 = k
    · simp [storePut, storeGet, h]
    · simp [storePut, storeGet, h, ih]

theorem storeGet_storePut_ne (s : Store) (k v k1 : PyStr) (h : k1 ≠ k) :
    storeGet (storePut s k v) k1 = storeGet s k1 := by
  have h2 : ¬(k = k1) := fun hk => h hk.symm
  induction s with
  | nil => simp [storePut, storeGet, h2]
  | cons p rest ih =>
    rcases p with ⟨a, b⟩
    by_cases hp : a = k
    · subst hp
      simp [storePut, storeGet, h2]
    · simp [storePut, storeGet, hp, ih]

theorem storeGet_storeDel_self (s : Store) (k : PyStr) :
    storeGet (storeDel s k) k = none := by
  induction s with
  | nil => simp [storeDel, storeGet]
  | cons p rest ih =>
    by_cases h : p.1 = k
    · simp [storeDel, h, ih]
    · simp [storeDel, storeGet, h, ih]

theorem storeGet_storeDel_ne (s : Store) (k k1 : PyStr) (h : k1 ≠ k) :
    storeGet (storeDel s k) k1 = storeGet s k1 := by
  have h2 : ¬(k = k1) := fun hk => h hk.symm
  induction s with
  | nil => simp [storeDel]
  | cons p rest ih =>
    rcases p with ⟨a, b⟩
    by_cases hp : a = k
    · subst hp
      simp [storeDel, storeGet, h2, ih]
    · simp [storeDel, storeGet, hp, ih]

theorem roster_key_ne_cred_key (u : PyStr) :
    SSM_CYHY_OPS_USERNAMES ≠ SSM_SSH_KEY_PFX ++ u := by
  intro h
  have hlen := congrArg List.length h
  rw [List.length_append] at hlen
  have h1 : SSM_CYHY_OPS_USERNAMES.length = 20 := by decide
  have h2 : SSM_SSH_KEY_PFX.length = 22 := by decide
  omega

theorem nodupB_erase (l : List PyStr) (a : PyStr) (h : nodupB l = true) :
    nodupB (l.erase a) = true := by
  rw [nodupB_iff] at h ⊢
  exact h.erase a

theorem nodupB_append_single (l : List PyStr) (a : PyStr)
    (hm : a ∉ l) (h : nodupB l = true) :
    nodupB (l ++ [a]) = true := by
  rw [nodupB_iff] at h ⊢
  rw [← List.concat_eq_append]
  exact List.Nodup.concat hm h

theorem reconcile_nodupB (users0 : List PyStr) (u : PyStr) (rm : Bool)
    (h : nodupB users0 = true) :
    nodupB (reconcile users0 u rm).1 = true := by
  cases rm with
  | false =>
    cases hm : memB u users0 with
    | false =>
      have hnm : u ∉ users0 := (memB_false_iff u users0).mp hm
      simp [reconcile, hm, nodupB_append_single users0 u hnm h]
    | true => simp [reconcile, hm, h]
  | true =>
    cases hm : memB u users0 with
    | false => simp [reconcile, hm, h]
    | true => simp [reconcile, hm, nodupB_erase users0 u h]

theorem reconcile_sep_not_mem (users0 : List PyStr) (u : PyStr) (rm : Bool)
    (sep : Char) (h0 : ∀ w ∈ users0, sep ∉ w) (hu : sep ∉ u) :
    ∀ w ∈ (reconcile users0 u rm).1, sep ∉ w := by
  intro w hw
  cases rm with
  | false =>
    cases hm : memB u users0 with
    | false =>
      simp [reconcile, hm] at hw
      rcases hw with hw | hw
      · exact h0 w hw
      · subst hw; exact hu
    | true =>
      simp [reconcile, hm] at hw
      exact h0 w hw
  | true =>
    cases hm : memB u users0 with
    | false =>
      simp [reconcile, hm] at hw
      exact h0 w hw
    | true =>
      simp [reconcile, hm] at hw
      exact h0 w (List.mem_of_mem_erase hw)

theorem rosterWF_congr (s1 s2 : Store)
    (h : storeGet s1 SSM_CYHY_OPS_USERNAMES = storeGet s2 SSM_CYHY_OPS_USERNAMES) :
    rosterWF s1 = rosterWF s2 := by
  unfold rosterWF
  rw [h]

theorem rosterWF_del_roster (s : Store) :
    rosterWF (storeDel s SSM_CYHY_OPS_USERNAMES) = true := by
  unfold rosterWF
  rw [storeGet_storeDel_self]

theorem rosterWF_put_roster (s : Store) (users : List PyStr)
    (hne : users ≠ []) (hnd : nodupB users = true)
    (hcf : ∀ w ∈ users, ',' ∉ w) :
    rosterWF (storePut s SSM_CYHY_OPS_USERNAMES (pyJoin ',' users)) = true := by
  unfold rosterWF
  rw [storeGet_storePut_self]
  show nodupB (pySplit ',' (pyJoin ',' users)) = true
  rw [pySplit_pyJoin ',' users hne hcf]
  exact hnd

theorem ssmDelete_store_cases (s : Store) (k : PyStr) (fs : List Fault) :
    (ssmDelete s k fs).2.1 = s ∨ (ssmDelete s k fs).2.1 = storeDel s k := by
  have hcore : (delOutcome s k).2 = s ∨ (delOutcome s k).2 = storeDel s k := by
    unfold delOutcome
    cases h : storeGet s k <;> simp
  cases fs with
  | nil =>
    rcases hd : delOutcome s k with ⟨r, s1⟩
    rw [hd] at hcore
    simpa [ssmDelete, hd] using hcore
  | cons f fs1 =>
    cases f with
    | ok =>
      rcases hd : delOutcome s k with ⟨r, s1⟩
      rw [hd] at hcore
      simpa [ssmDelete, hd] using hcore
    | err => simp [ssmDelete]

theorem ssmPut_store_cases (s : Store) (k v : PyStr) (ow : Bool) (fs : List Fault) :
    (ssmPut s k v ow fs).2.1 = s ∨ (ssmPut s k v ow fs).2.1 = storePut s k v := by
  have hcore : (putOutcome s k v ow).2 = s ∨ (putOutcome s k v ow).2 = storePut s k v := by
    unfold putOutcome
    by_cases h : (!ow && (storeGet s k).isSome) = true
    · simp [h]
    · simp [h]
  cases fs with
  | nil =>
    rcases hp : putOutcome s k v ow with ⟨r, s1⟩
    rw [hp] at hcore
    simpa [ssmPut, hp] using hcore
  | cons f fs1 =>
    cases f with
    | ok =>
      rcases hp : putOutcome s k v ow with ⟨r, s1⟩
      rw [hp] at hcore
      simpa [ssmPut, hp] using hcore
    | err => simp [ssmPut]

theorem ssmPut_overwrite_store (s : Store) (k v : PyStr) (fs : List Fault)
    (h : fs = [] ∨ fs.head? = some Fault.ok) :
    (ssmPut s k v true fs).2.1 = storePut s k v := by
  rcases h with h | h
  · subst h
    simp [ssmPut, putOutcome]
  · cases fs with
    | nil => simp at h
    | cons f fs1 =>
      simp at h
      subst h
      simp [ssmPut, putOutcome]

theorem writeBack_store (store : Store) (users : List PyStr) (mb : Bool)
    (fs : List Fault) :
    (writeBack store users mb fs).2.1 =
      if users.length = 0 then (ssmDelete store SSM_CYHY_OPS_USERNAMES fs).2.1
      else (ssmPut store SSM_CYHY_OPS_USERNAMES (pyJoin ',' users) true fs).2.1 := by
  unfold writeBack
  by_cases hlen : users.length = 0
  · rw [if_pos hlen, if_pos hlen]
    rcases h : ssmDelete store SSM_CYHY_OPS_USERNAMES fs with ⟨d, s1, fs1⟩
    cases d <;> simp
  · rw [if_neg hlen, if_neg hlen]
    rcases h : ssmPut store SSM_CYHY_OPS_USERNAMES (pyJoin ',' users) true fs
      with ⟨p, s1, fs1⟩
    cases p with
    | ok => cases mb <;> simp
    | alreadyExists => simp
    | clientError => simp

theorem writeBack_WF (store : Store) (users : List PyStr) (mb : Bool)
    (fs : List Fault)
    (hwf : rosterWF store = true)
    (hnd : nodupB users = true)
    (hcf : ∀ w ∈ users, ',' ∉ w) :
    rosterWF (writeBack store users mb fs).2.1 = true := by
  rw [writeBack_store]
  by_cases hlen : users.length = 0
  · rw [if_pos hlen]
    rcases ssmDelete_store_cases store SSM_CYHY_OPS_USERNAMES fs with h | h <;> rw [h]
    · exact hwf
    · exact rosterWF_del_roster store
  · rw [if_neg hlen]
    rcases ssmPut_store_cases store SSM_CYHY_OPS_USERNAMES (pyJoin ',' users) true fs
      with h | h <;> rw [h]
    · exact hwf
    · exact rosterWF_put_roster store users
        (fun he => hlen (by rw [he]; rfl)) hnd hcf

theorem updateCore_WF (store : Store) (u : PyStr) (rm : Bool) (fs1 : List Fault)
    (hu : ',' ∉ u) (hwf : rosterWF store = true) :
    rosterWF (updateCore store u rm fs1).2.1 = true := by
  unfold updateCore
  cases hg : storeGet store SSM_CYHY_OPS_USERNAMES with
  | none =>
    simp only [getOutcome, hg]
    exact writeBack_WF store _ _ fs1 hwf
      (reconcile_nodupB [] u rm rfl)
      (reconcile_sep_not_mem [] u rm ',' (by simp) hu)
  | some v =>
    simp only [getOutcome, hg]
    have hnd : nodupB (pySplit ',' v) = true := by
      unfold rosterWF at hwf
      rw [hg] at hwf
      exact hwf
    exact writeBack_WF store _ _ fs1 hwf
      (reconcile_nodupB (pySplit ',' v) u rm hnd)
      (reconcile_sep_not_mem (pySplit ',' v) u rm ',' (pySplit_sep_not_mem ',' v) hu)

theorem update_WF (store : Store) (u : PyStr) (rm : Bool) (fs : List Fault)
    (hu : ',' ∉ u) (hwf : rosterWF store = true) :
    rosterWF (update_cyhy_ops_users store u rm fs).2.1 = true := by
  cases fs with
  | nil => exact updateCore_WF store u rm [] hu hwf
  | cons f fs1 =>
    cases f with
    | ok => exact updateCore_WF store u rm fs1 hu hwf
    | err => exact hwf

theorem storeGet_writeBack_ne (store : Store) (users : List PyStr) (mb : Bool)
    (fs : List Fault) (k1 : PyStr) (h : k1 ≠ SSM_CYHY_OPS_USERNAMES) :
    storeGet (writeBack store users mb fs).2.1 k1 = storeGet store k1 := by
  rw [writeBack_store]
  by_cases hlen : users.length = 0
  · rw [if_pos hlen]
    rcases ssmDelete_store_cases store SSM_CYHY_OPS_USERNAMES fs with hc | hc
    · rw [hc]
    · rw [hc]
      exact storeGet_storeDel_ne store _ k1 h
  · rw [if_neg hlen]
    rcases ssmPut_store_cases store SSM_CYHY_OPS_USERNAMES (pyJoin ',' users) true fs
      with hc | hc
    · rw [hc]
    · rw [hc]
      exact storeGet_storePut_ne store _ _ k1 h

theorem storeGet_updateCore_ne (store : Store) (u : PyStr) (rm : Bool)
    (fs1 : List Fault) (k1 : PyStr) (h : k1 ≠ SSM_CYHY_OPS_USERNAMES) :
    storeGet (updateCore store u rm fs1).2.1 k1 = storeGet store k1 := by
  unfold updateCore
  cases hg : storeGet store SSM_CYHY_OPS_USERNAMES with
  | none =>
    simp only [getOutcome, hg]
    exact storeGet_writeBack_ne store _ _ fs1 k1 h
  | some v =>
    simp only [getOutcome, hg]
    exact storeGet_writeBack_ne store _ _ fs1 k1 h

theorem storeGet_update_ne (store : Store) (u : PyStr) (rm : Bool)
    (fs : List Fault) (k1 : PyStr) (h : k1 ≠ SSM_CYHY_OPS_USERNAMES) :
    storeGet (update_cyhy_ops_users store u rm fs).2.1 k1 = storeGet store k1 := by
  cases fs with
  | nil => exact storeGet_updateCore_ne store u rm [] k1 h
  | cons f fs1 =>
    cases f with
    | ok => exact storeGet_updateCore_ne store u rm fs1 k1 h
    | err => rfl

theorem rosterWF_ssmPut_cred (s : Store) (u v : PyStr) (ow : Bool)
    (fs : List Fault) (hwf : rosterWF s = true) :
    rosterWF (ssmPut s (SSM_SSH_KEY_PFX ++ u) v ow fs).2.1 = true := by
  rcases ssmPut_store_cases s (SSM_SSH_KEY_PFX ++ u) v ow fs with h | h <;> rw [h]
  · exact hwf
  · rw [rosterWF_congr _ s
      (storeGet_storePut_ne s _ v _ (roster_key_ne_cred_key u))]
    exact hwf

theorem rosterWF_ssmDelete_cred (s : Store) (u : PyStr) (fs : List Fault)
    (hwf : rosterWF s = true) :
    rosterWF (ssmDelete s (SSM_SSH_KEY_PFX ++ u) fs).2.1 = true := by
  rcases ssmDelete_store_cases s (SSM_SSH_KEY_PFX ++ u) fs with h | h <;> rw [h]
  · exact hwf
  · rw [rosterWF_congr _ s
      (storeGet_storeDel_ne s _ _ (roster_key_ne_cred_key u))]
    exact hwf

theorem allWF_cons (region : String) (s : Store) (rest : List (String × Store)) :
    allWF ((region, s) :: rest) = true ↔ rosterWF s = true ∧ allWF rest = true := by
  simp [allWF]

theorem fullDeleteStep_WF (full : Bool) (u : PyStr) (store : Store)
    (fs : List Fault) (hwf : rosterWF store = true) :
    rosterWF (fullDeleteStep full u store fs).2.1 = true := by
  cases full with
  | false => exact hwf
  | true =>
    unfold fullDeleteStep
    rcases hd : ssmDelete store (SSM_SSH_KEY_PFX ++ u) fs with ⟨d, s1, fs1⟩
    have := rosterWF_ssmDelete_cred store u fs hwf
    rw [hd] at this
    cases d <;> simpa using this

theorem add_user_go_WF (u k : PyStr) (ow : Bool) (hu : ',' ∉ u) :
    ∀ (regions : List (String × Store)) (fs : List Fault) (rv : Nat),
      allWF regions = true →
      allWF (add_user_go u k ow regions fs rv).2.1 = true := by
  intro regions
  induction regions with
  | nil =>
    intro fs rv _
    rfl
  | cons p rest ih =>
    intro fs rv hall
    rcases p with ⟨region, store⟩
    rw [allWF_cons] at hall
    rcases hp : ssmPut store (SSM_SSH_KEY_PFX ++ u) k ow fs with ⟨pr, s1, fs1⟩
    have hs1 : rosterWF s1 = true := by
      have h0 := rosterWF_ssmPut_cred store u k ow fs hall.1
      rw [hp] at h0
      exact h0
    rcases hup : update_cyhy_ops_users s1 u false fs1 with ⟨r, s2, fs2⟩
    have hs2 : rosterWF s2 = true := by
      have h0 := update_WF s1 u false fs1 hu hs1
      rw [hup] at h0
      exact h0
    cases pr
    case clientError => simp [add_user_go, hp, allWF, hs1, hall.2]
    all_goals (
      cases r
      case unboundLocal => simp [add_user_go, hp, hup, allWF, hs2, hall.2]
      case ret c =>
        simp [add_user_go, hp, hup, retCode, allWF, hs2]
        exact ih fs2 _ hall.2)

theorem remove_user_go_WF (u : PyStr) (full : Bool) (hu : ',' ∉ u) :
    ∀ (regions : List (String × Store)) (fs : List Fault) (rv : Nat),
      allWF regions = true →
      allWF (remove_user_go u full regions fs rv).2.1 = true := by
  intro regions
  induction regions with
  | nil =>
    intro fs rv _
    rfl
  | cons p rest ih =>
    intro fs rv hall
    rcases p with ⟨region, store⟩
    rw [allWF_cons] at hall
    rcases hd : fullDeleteStep full u store fs with ⟨b, s1, fs1⟩
    have hs1 : rosterWF s1 = true := by
      have h0 := fullDeleteStep_WF full u store fs hall.1
      rw [hd] at h0
      exact h0
    rcases hup : update_cyhy_ops_users s1 u true fs1 with ⟨r, s2, fs2⟩
    have hs2 : rosterWF s2 = true := by
      have h0 := update_WF s1 u true fs1 hu hs1
      rw [hup] at h0
      exact h0
    cases b
    case true => simp [remove_user_go, hd, allWF, hs1, hall.2]
    case false =>
      cases r
      case unboundLocal => simp [remove_user_go, hd, hup, allWF, hs2, hall.2]
      case ret c =>
        simp [remove_user_go, hd, hup, retCode, allWF, hs2]
        exact ih fs2 _ hall.2

theorem applyOp_WF (op : Op) (regions : List (String × Store)) (fs : List Fault)
    (hu : ',' ∉ op.username) (h : allWF regions = true) :
    allWF (applyOp op regions fs).2.1 = true := by
  cases op with
  | addOp u k ow => exact add_user_go_WF u k ow hu regions fs 0 h
  | removeOp u full => exact remove_user_go_WF u full hu regions fs 0 h

theorem writeBack_ret (store : Store) (users : List PyStr) (mb : Bool)
    (fs : List Fault) (c : Nat)
    (h : (writeBack store users mb fs).1 = PyResult.ret c) : c = 0 ∨ c = 1 := by
  unfold writeBack at h
  by_cases hlen : users.length = 0
  · rw [if_pos hlen] at h
    rcases hd : ssmDelete store SSM_CYHY_OPS_USERNAMES fs with ⟨d, s1, fs1⟩
    rw [hd] at h
    cases d <;> simp at h <;> omega
  · rw [if_neg hlen] at h
    rcases hp : ssmPut store SSM_CYHY_OPS_USERNAMES (pyJoin ',' users) true fs
      with ⟨p, s1, fs1⟩
    rw [hp] at h
    cases p with
    | ok =>
      cases mb <;> simp at h
      omega
    | alreadyExists =>
      simp at h
      omega
    | clientError =>
      simp at h
      omega

theorem updateCore_ret (store : Store) (u : PyStr) (rm : Bool)
    (fs1 : List Fault) (c : Nat)
    (h : (updateCore store u rm fs1).1 = PyResult.ret c) : c = 0 ∨ c = 1 := by
  unfold updateCore at h
  cases hg : storeGet store SSM_CYHY_OPS_USERNAMES with
  | none =>
    simp only [getOutcome, hg] at h
    exact writeBack_ret store _ _ fs1 c h
  | some v =>
    simp only [getOutcome, hg] at h
    exact writeBack_ret store _ _ fs1 c h

theorem update_ret (store : Store) (u : PyStr) (rm : Bool)
    (fs : List Fault) (c : Nat)
    (h : (update_cyhy_ops_users store u rm fs).1 = PyResult.ret c) :
    c = 0 ∨ c = 1 := by
  cases fs with
  | nil => exact updateCore_ret store u rm [] c h
  | cons f fs1 =>
    cases f with
    | ok => exact updateCore_ret store u rm fs1 c h
    | err =>
      simp only [update_cyhy_ops_users, PyResult.ret.injEq] at h
      omega

theorem putOutcome_ne_clientError (s : Store) (key v : PyStr) (ow : Bool) :
    (putOutcome s key v ow).1 ≠ PutRes.clientError := by
  unfold putOutcome
  by_cases hb : (!ow && (storeGet s key).isSome) = true
  · simp [hb]
  · simp [hb]

theorem add_user_go_rv1 (u k : PyStr) (ow : Bool) :
    ∀ (regions : List (String × Store)) (fs : List Fault),
      (add_user_go u k ow regions fs 1).1 = PyResult.ret 1 ∨
      (add_user_go u k ow regions fs 1).1 = PyResult.unboundLocal := by
  intro regions
  induction regions with
  | nil =>
    intro fs
    left
    rfl
  | cons p rest ih =>
    intro fs
    rcases p with ⟨region, store⟩
    rcases hp : ssmPut store (SSM_SSH_KEY_PFX ++ u) k ow fs with ⟨pr, s1, fs1⟩
    cases pr
    case clientError =>
      left
      simp [add_user_go, hp]
    all_goals (
      rcases hup : update_cyhy_ops_users s1 u false fs1 with ⟨r, s2, fs2⟩
      cases r
      case unboundLocal =>
        right
        simp [add_user_go, hp, hup]
      case ret c =>
        have hc : c = 0 ∨ c = 1 := by
          apply update_ret s1 u false fs1 c
          simp [hup]
        have hif : (if c ≠ 0 then c else 1) = 1 := by
          rcases hc with h | h <;> simp [h]
        simp [add_user_go, hp, hup, retCode, hif]
        exact ih fs2)

theorem remove_user_go_rv1 (u : PyStr) (full : Bool) :
    ∀ (regions : List (String × Store)) (fs : List Fault),
      (remove_user_go u full regions fs 1).1 = PyResult.ret 1 ∨
      (remove_user_go u full regions fs 1).1 = PyResult.unboundLocal := by
  intro regions
  induction regions with
  | nil =>
    intro fs
    left
    rfl
  | cons p rest ih =>
    intro fs
    rcases p with ⟨region, store⟩
    rcases hd : fullDeleteStep full u store fs with ⟨b, s1, fs1⟩
    cases b
    case true =>
      left
      simp [remove_user_go, hd]
    case false =>
      rcases hup : update_cyhy_ops_users s1 u true fs1 with ⟨r, s2, fs2⟩
      cases r
      case unboundLocal =>
        right
        simp [remove_user_go, hd, hup]
      case ret c =>
        have hc : c = 0 ∨ c = 1 := by
          apply update_ret s1 u true fs1 c
          simp [hup]
        have hif : (if c ≠ 0 then c else 1) = 1 := by
          rcases hc with h | h <;> simp [h]
        simp [remove_user_go, hd, hup, retCode, hif]
        exact ih fs2

/-- C1, counterexample: starting from a region with no roster key, adding
"charlie.brown" and then "alice.smith" leaves the persisted roster value
"charlie.brown,alice.smith" — the usernames are in insertion order, not
sorted ascending, refuting the sort half of the claimed invariant. -/
theorem C1_counterexample :
    storeGet
      (storeOf (add_user "alice.smith".data "k2".data false
        (add_user "charlie.brown".data "k1".data false
          [("us-east-1", [])] []).2.1 []).2.1)
      SSM_CYHY_OPS_USERNAMES = some "charlie.brown,alice.smith".data ∧
    sortedAscB (pySplit ',' "charlie.brown,alice.smith".data) = false := by
  decide

/-- C1 (amended): for every sequence of AddUser/RemoveUser operations whose
usernames contain no comma, starting from regions whose rosters are absent
or duplicate-free, after each operation every region's persisted roster
(when present) still parses with no duplicate usernames; the roster is kept
in insertion order, not sorted. -/
theorem C1_nodup_invariant (ops : List (Op × List Fault)) :
    ∀ (regions : List (String × Store)),
      (∀ p ∈ ops, ',' ∉ p.1.username) →
      allWF regions = true →
      allWF (runOps ops regions) = true := by
  induction ops with
  | nil =>
    intro regions _ h
    exact h
  | cons p rest ih =>
    intro regions hu h
    rcases p with ⟨op, fs⟩
    simp only [runOps]
    exact ih (applyOp op regions fs).2.1
      (fun q hq => hu q (List.mem_cons_of_mem _ hq))
      (applyOp_WF op regions fs (hu (op, fs) (List.mem_cons_self _ _)) h)

/-- Witness for C1's theorem at a concrete two-operation sequence. -/
theorem C1_nodup_invariant_witness :
    (∀ p ∈ ([(Op.addOp "charlie.brown".data "k1".data false, ([] : List Fault)),
             (Op.addOp "alice.smith".data "k2".data false, [])] :
        List (Op × List Fault)), ',' ∉ p.1.username) ∧
    allWF [("us-east-1", ([] : Store))] = true ∧
    allWF (runOps
      [(Op.addOp "charlie.brown".data "k1".data false, []),
       (Op.addOp "alice.smith".data "k2".data false, [])]
      [("us-east-1", [])]) = true :=
  ⟨by decide, by decide,
    C1_nodup_invariant
      [(Op.addOp "charlie.brown".data "k1".data false, []),
       (Op.addOp "alice.smith".data "k2".data false, [])]
      [("us-east-1", [])] (by decide) (by decide)⟩

/-- C2, counterexample: removing the only roster member deletes the roster
key outright (the region store ends empty and the lookup yields none), not
an empty-string value, refuting "the roster key is never deleted". -/
theorem C2_counterexample :
    remove_user "alice.smith".data false
        [("us-east-1", [(SSM_CYHY_OPS_USERNAMES, "alice.smith".data)])] [] =
      (PyResult.ret 0, [("us-east-1", [])], []) ∧
    storeGet ([] : Store) SSM_CYHY_OPS_USERNAMES = none := by
  decide

/-- C2 (amended): when the roster value is exactly the removed username,
RemoveUser(username, full=false) deletes the roster key from the store
(update_cyhy_ops_users calls delete_parameter whenever the edited list is
empty) and returns 0; the key is absent afterwards, not present with an
empty-string value. -/
theorem C2_last_removal_deletes (region : String) (s : Store) (u : PyStr)
    (hros : storeGet s SSM_CYHY_OPS_USERNAMES = some u) (hcf : ',' ∉ u) :
    remove_user u false [(region, s)] [] =
      (PyResult.ret 0, [(region, storeDel s SSM_CYHY_OPS_USERNAMES)], []) ∧
    storeGet (storeDel s SSM_CYHY_OPS_USERNAMES) SSM_CYHY_OPS_USERNAMES = none := by
  refine ⟨?_, storeGet_storeDel_self s SSM_CYHY_OPS_USERNAMES⟩
  have hsplit : pySplit ',' u = [u] := pySplit_no_sep ',' u hcf
  have h1 : updateCore s u true [] =
      (PyResult.ret 0, storeDel s SSM_CYHY_OPS_USERNAMES, []) := by
    unfold updateCore
    simp only [getOutcome, hros]
    rw [hsplit]
    simp [reconcile, memB, writeBack, ssmDelete, delOutcome, hros]
  simp [remove_user, remove_user_go, fullDeleteStep, update_cyhy_ops_users,
    h1, retCode]

/-- Witness for C2's theorem at a concrete one-entry roster. -/
theorem C2_last_removal_deletes_witness :
    storeGet [(SSM_CYHY_OPS_USERNAMES, "alice.smith".data)]
        SSM_CYHY_OPS_USERNAMES = some "alice.smith".data ∧
    ',' ∉ "alice.smith".data ∧
    (remove_user "alice.smith".data false
        [("us-east-1", [(SSM_CYHY_OPS_USERNAMES, "alice.smith".data)])] [] =
      (PyResult.ret 0,
        [("us-east-1",
          storeDel [(SSM_CYHY_OPS_USERNAMES, "alice.smith".data)]
            SSM_CYHY_OPS_USERNAMES)], []) ∧
      storeGet (storeDel [(SSM_CYHY_OPS_USERNAMES, "alice.smith".data)]
        SSM_CYHY_OPS_USERNAMES) SSM_CYHY_OPS_USERNAMES = none) :=
  ⟨by decide, by decide,
    C2_last_removal_deletes "us-east-1"
      [(SSM_CYHY_OPS_USERNAMES, "alice.smith".data)]
      "alice.smith".data (by decide) (by decide)⟩

/-- C3, counterexample: with a hard store error injected on the credential
write, add_user returns 1 with the store untouched — the roster key is
still absent afterwards, so the roster reconciliation step was not
attempted, refuting the claimed best-effort continuation. -/
theorem C3_counterexample :
    add_user "alice.smith".data "ssh-key".data false
        [("us-east-1", [])] [Fault.err] =
      (PyResult.ret 1, [("us-east-1", [])], []) ∧
    storeGet ([] : Store) SSM_CYHY_OPS_USERNAMES = none := by
  decide

/-- C3 (amended): a hard store error on the AddUser credential write makes
add_user return 1 immediately, leaving every store unchanged: the roster
reconciliation for that region is not attempted and the remaining regions
are skipped. -/
theorem C3_hard_put_error_aborts (u k : PyStr) (ow : Bool) (region : String)
    (s : Store) (rest : List (String × Store)) (fs : List Fault) :
    add_user u k ow ((region, s) :: rest) (Fault.err :: fs) =
      (PyResult.ret 1, (region, s) :: rest, fs) := rfl

/-- C4, counterexample: with the credential present but the roster key
absent (and no fault injected), check_user returns 0, refuting the claim
that an absent roster key makes CheckUser return 1. -/
theorem C4_counterexample :
    check_user "alice.smith".data
        [("us-east-1",
          [(SSM_SSH_KEY_PFX ++ "alice.smith".data, "ssh-key".data)])] [] =
      (PyResult.ret 0,
        [("us-east-1",
          [(SSM_SSH_KEY_PFX ++ "alice.smith".data, "ssh-key".data)])], []) := by
  decide

/-- C4 (amended): CheckUser returns 1 when the roster fetch fails with a
hard store error, whatever the credential lookup produced; an absent roster
key is only logged as a warning and, alone, leaves the status 0. -/
theorem C4_hard_roster_error (u : PyStr) (region : String) (s : Store)
    (rest : List (String × Store)) (fs : List Fault)
    (habs : storeGet s SSM_CYHY_OPS_USERNAMES = none) :
    check_user u ((region, s) :: rest) (Fault.ok :: Fault.err :: fs) =
      (PyResult.ret 1, (region, s) :: rest, fs) ∧
    check_user u [(region, s)] [] = (PyResult.ret 0, [(region, s)], []) := by
  constructor
  · cases hg : storeGet s (SSM_SSH_KEY_PFX ++ u) <;>
      simp [check_user, ssmGet, getOutcome, hg]
  · cases hg : storeGet s (SSM_SSH_KEY_PFX ++ u) <;>
      simp [check_user, ssmGet, getOutcome, hg, habs]

/-- Witness for C4's theorem at a concrete store with the credential
present and the roster key absent. -/
theorem C4_hard_roster_error_witness :
    storeGet [(SSM_SSH_KEY_PFX ++ "alice.smith".data, "ssh-key".data)]
        SSM_CYHY_OPS_USERNAMES = none ∧
    (check_user "alice.smith".data
        [("us-east-1",
          [(SSM_SSH_KEY_PFX ++ "alice.smith".data, "ssh-key".data)])]
        [Fault.ok, Fault.err] =
      (PyResult.ret 1,
        [("us-east-1",
          [(SSM_SSH_KEY_PFX ++ "alice.smith".data, "ssh-key".data)])], []) ∧
    check_user "alice.smith".data
        [("us-east-1",
          [(SSM_SSH_KEY_PFX ++ "alice.smith".data, "ssh-key".data)])] [] =
      (PyResult.ret 0,
        [("us-east-1",
          [(SSM_SSH_KEY_PFX ++ "alice.smith".data, "ssh-key".data)])], [])) :=
  ⟨by decide,
    C4_hard_roster_error "alice.smith".data "us-east-1"
      [(SSM_SSH_KEY_PFX ++ "alice.smith".data, "ssh-key".data)] [] []
      (by decide)⟩

/-- C5, counterexample: a hard store error on the first region's credential
write makes add_user return 1 with the second region's store untouched (its
roster is still absent), so the operation was not attempted in the
remaining region, refuting the claimed isolation. -/
theorem C5_counterexample :
    add_user "alice.smith".data "ssh-key".data false
        [("us-east-1", []), ("us-west-1", [])] [Fault.err] =
      (PyResult.ret 1, [("us-east-1", []), ("us-west-1", [])], []) ∧
    rosterList (storeOf (add_user "alice.smith".data "ssh-key".data false
        [("us-west-1", [])] []).2.1) = ["alice.smith".data] := by
  decide

/-- C5 (amended): a hard failure in the roster-reconciliation step of one
region does not prevent the remaining regions from being processed — for
RemoveUser (the fault hits its first remote call, the roster get) and for
AddUser (the fault hits its second remote call, the roster get after the
credential write) the remaining regions run exactly as they would with the
accumulated failure status 1, and that run's aggregate status is never 0
(it is 1, or the run dies with the UnboundLocalError slip); but a hard
failure in a region's credential operation — the AddUser credential write,
the full-RemoveUser credential delete, or either CheckUser get — makes the
method return 1 immediately, leaving the remaining regions untouched. -/
theorem C5_reconcile_isolation :
    (∀ (u : PyStr) (r1 : String) (s1 : Store) (rest : List (String × Store))
        (fs : List Fault),
      remove_user u false ((r1, s1) :: rest) (Fault.err :: fs) =
        ((remove_user_go u false rest fs 1).1,
          (r1, s1) :: (remove_user_go u false rest fs 1).2.1,
          (remove_user_go u false rest fs 1).2.2)) ∧
    (∀ (u k : PyStr) (ow : Bool) (r1 : String) (s1 : Store)
        (rest : List (String × Store)) (fs : List Fault),
      add_user u k ow ((r1, s1) :: rest) (Fault.ok :: Fault.err :: fs) =
        ((add_user_go u k ow rest fs 1).1,
          (r1, (putOutcome s1 (SSM_SSH_KEY_PFX ++ u) k ow).2) ::
            (add_user_go u k ow rest fs 1).2.1,
          (add_user_go u k ow rest fs 1).2.2)) ∧
    (∀ (u : PyStr) (full : Bool) (regions : List (String × Store))
        (fs : List Fault),
      (remove_user_go u full regions fs 1).1 = PyResult.ret 1 ∨
      (remove_user_go u full regions fs 1).1 = PyResult.unboundLocal) ∧
    (∀ (u k : PyStr) (ow : Bool) (regions : List (String × Store))
        (fs : List Fault),
      (add_user_go u k ow regions fs 1).1 = PyResult.ret 1 ∨
      (add_user_go u k ow regions fs 1).1 = PyResult.unboundLocal) ∧
    (∀ (u k : PyStr) (ow : Bool) (r1 : String) (s1 : Store)
        (rest : List (String × Store)) (fs : List Fault),
      add_user u k ow ((r1, s1) :: rest) (Fault.err :: fs) =
        (PyResult.ret 1, (r1, s1) :: rest, fs)) ∧
    (∀ (u : PyStr) (r1 : String) (s1 : Store) (rest : List (String × Store))
        (fs : List Fault),
      remove_user u true ((r1, s1) :: rest) (Fault.err :: fs) =
        (PyResult.ret 1, (r1, s1) :: rest, fs)) ∧
    (∀ (u : PyStr) (r1 : String) (s1 : Store) (rest : List (String × Store))
        (fs : List Fault),
      check_user u ((r1, s1) :: rest) (Fault.err :: fs) =
        (PyResult.ret 1, (r1, s1) :: rest, fs)) ∧
    (∀ (u : PyStr) (r1 : String) (s1 : Store) (rest : List (String × Store))
        (fs : List Fault),
      check_user u ((r1, s1) :: rest) (Fault.ok :: Fault.err :: fs) =
        (PyResult.ret 1, (r1, s1) :: rest, fs)) := by
  refine ⟨?_, ?_, ?_, ?_, ?_, ?_, ?_, ?_⟩
  · intro u r1 s1 rest fs
    rfl
  · intro u k ow r1 s1 rest fs
    rcases hp : putOutcome s1 (SSM_SSH_KEY_PFX ++ u) k ow with ⟨pr, s2⟩
    have hne2 : pr ≠ PutRes.clientError := by
      have h0 := putOutcome_ne_clientError s1 (SSM_SSH_KEY_PFX ++ u) k ow
      rw [hp] at h0
      exact h0
    cases pr
    case clientError => exact absurd rfl hne2
    all_goals
      simp [add_user, add_user_go, ssmPut, hp, update_cyhy_ops_users, retCode]
  · intro u full regions fs
    exact remove_user_go_rv1 u full regions fs
  · intro u k ow regions fs
    exact add_user_go_rv1 u k ow regions fs
  · intro u k ow r1 s1 rest fs
    rfl
  · intro u r1 s1 rest fs
    rfl
  · intro u r1 s1 rest fs
    rfl
  · intro u r1 s1 rest fs
    cases hg : storeGet s1 (SSM_SSH_KEY_PFX ++ u) <;>
      simp [check_user, ssmGet, getOutcome, hg]

/-- C6: RemoveUser of a username absent from a non-empty roster dies with
the UnboundLocalError slip (update_msg is read before assignment) after
writing the unchanged roster back, and RemoveUser against a region with no
roster key returns 1 (the empty edited list routes into delete_parameter,
whose ParameterNotFound is caught by the generic ClientError handler) —
neither path performs the claimed warn-and-return-0. -/
theorem C6_remove_absent_fails :
    remove_user "alice.smith".data false
        [("us-east-1", [(SSM_CYHY_OPS_USERNAMES, "bob.jones".data)])] [] =
      (PyResult.unboundLocal,
        [("us-east-1", [(SSM_CYHY_OPS_USERNAMES, "bob.jones".data)])], []) ∧
    remove_user "alice.smith".data false [("us-east-1", [])] [] =
      (PyResult.ret 1, [("us-east-1", [])], []) := by
  decide

/-- C7: the first AddUser from an empty store returns 0 and the roster
lists the user once; the second identical AddUser (overwrite=false) keeps
the roster listing the user exactly once but dies with the
UnboundLocalError slip (the already-a-member branch never assigns
update_msg) instead of returning 0. -/
theorem C7_second_add_crashes :
    (add_user "alice.smith".data "ssh-key".data false
        [("us-east-1", [])] []).1 = PyResult.ret 0 ∧
    rosterList (storeOf (add_user "alice.smith".data "ssh-key".data false
        [("us-east-1", [])] []).2.1) = ["alice.smith".data] ∧
    (add_user "alice.smith".data "ssh-key".data false
        (add_user "alice.smith".data "ssh-key".data false
          [("us-east-1", [])] []).2.1 []).1 = PyResult.unboundLocal ∧
    rosterList (storeOf (add_user "alice.smith".data "ssh-key".data false
        (add_user "alice.smith".data "ssh-key".data false
          [("us-east-1", [])] []).2.1 []).2.1) = ["alice.smith".data] := by
  decide

theorem updateCore_remove_present (s1 : Store) (u v : PyStr)
    (hros : storeGet s1 SSM_CYHY_OPS_USERNAMES = some v)
    (hmem : u ∈ pySplit ',' v)
    (hnd : nodupB (pySplit ',' v) = true) :
    (updateCore s1 u true []).1 = PyResult.ret 0 ∧
    u ∉ rosterList (updateCore s1 u true []).2.1 := by
  have hmB : memB u (pySplit ',' v) = true := (memB_iff u _).mpr hmem
  have hnotmem : u ∉ (pySplit ',' v).erase u :=
    List.Nodup.not_mem_erase ((nodupB_iff _).mp hnd)
  have hcf : ∀ w ∈ (pySplit ',' v).erase u, ',' ∉ w := fun w hw =>
    pySplit_sep_not_mem ',' v w (List.mem_of_mem_erase hw)
  have hupd : updateCore s1 u true [] =
      writeBack s1 ((pySplit ',' v).erase u) true [] := by
    unfold updateCore
    simp only [getOutcome, hros]
    simp [reconcile, hmB]
  rw [hupd]
  by_cases hLnil : (pySplit ',' v).erase u = []
  · rw [hLnil]
    have hdel : writeBack s1 [] true [] =
        (PyResult.ret 0, storeDel s1 SSM_CYHY_OPS_USERNAMES, []) := by
      simp [writeBack, ssmDelete, delOutcome, hros]
    rw [hdel]
    refine ⟨rfl, ?_⟩
    simp [rosterList, storeGet_storeDel_self]
  · have hlen : ¬ ((pySplit ',' v).erase u).length = 0 := by
      intro h0
      exact hLnil (List.length_eq_zero.mp h0)
    have hput : writeBack s1 ((pySplit ',' v).erase u) true [] =
        (PyResult.ret 0,
          storePut s1 SSM_CYHY_OPS_USERNAMES
            (pyJoin ',' ((pySplit ',' v).erase u)), []) := by
      simp [writeBack, hlen, ssmPut, putOutcome]
    rw [hput]
    refine ⟨rfl, ?_⟩
    simp only [rosterList, storeGet_storePut_self]
    rw [pySplit_pyJoin ',' _ hLnil hcf]
    exact hnotmem

/-- C8: when a credential exists at the expected key and the username is
enrolled in a duplicate-free roster, RemoveUser(username, full=true)
deletes the credential and removes the username from the roster and
returns 0, while RemoveUser(username, full=false) removes the username from
the roster, returns 0, and leaves the credential unchanged and
retrievable. -/
theorem C8_full_removal_asymmetry (region : String) (s : Store) (u kv v : PyStr)
    (hcred : storeGet s (SSM_SSH_KEY_PFX ++ u) = some kv)
    (hros : storeGet s SSM_CYHY_OPS_USERNAMES = some v)
    (hmem : u ∈ pySplit ',' v)
    (hnd : nodupB (pySplit ',' v) = true) :
    ((remove_user u true [(region, s)] []).1 = PyResult.ret 0 ∧
      storeGet (storeOf (remove_user u true [(region, s)] []).2.1)
        (SSM_SSH_KEY_PFX ++ u) = none ∧
      u ∉ rosterList (storeOf (remove_user u true [(region, s)] []).2.1)) ∧
    ((remove_user u false [(region, s)] []).1 = PyResult.ret 0 ∧
      storeGet (storeOf (remove_user u false [(region, s)] []).2.1)
        (SSM_SSH_KEY_PFX ++ u) = some kv ∧
      u ∉ rosterList (storeOf (remove_user u false [(region, s)] []).2.1)) := by
  constructor
  · -- full removal: the credential is deleted first
    have hstep : fullDeleteStep true u s [] =
        (false, storeDel s (SSM_SSH_KEY_PFX ++ u), []) := by
      simp [fullDeleteStep, ssmDelete, delOutcome, hcred]
    have hros1 : storeGet (storeDel s (SSM_SSH_KEY_PFX ++ u))
        SSM_CYHY_OPS_USERNAMES = some v := by
      rw [storeGet_storeDel_ne s _ _ (roster_key_ne_cred_key u)]
      exact hros
    have hcore := updateCore_remove_present
      (storeDel s (SSM_SSH_KEY_PFX ++ u)) u v hros1 hmem hnd
    rcases hu2 : updateCore (storeDel s (SSM_SSH_KEY_PFX ++ u)) u true []
      with ⟨r, s2, fs2⟩
    rw [hu2] at hcore
    have hr : r = PyResult.ret 0 := hcore.1
    subst hr
    have hrun : remove_user u true [(region, s)] [] =
        (PyResult.ret 0, [(region, s2)], fs2) := by
      simp [remove_user, remove_user_go, hstep, update_cyhy_ops_users, hu2,
        retCode]
    rw [hrun]
    refine ⟨rfl, ?_, ?_⟩
    · have hfr := storeGet_updateCore_ne (storeDel s (SSM_SSH_KEY_PFX ++ u))
        u true [] (SSM_SSH_KEY_PFX ++ u) (Ne.symm (roster_key_ne_cred_key u))
      rw [hu2] at hfr
      show storeGet s2 (SSM_SSH_KEY_PFX ++ u) = none
      rw [hfr]
      exact storeGet_storeDel_self s (SSM_SSH_KEY_PFX ++ u)
    · exact hcore.2
  · -- roster-only removal: the credential is untouched
    have hcore := updateCore_remove_present s u v hros hmem hnd
    rcases hu2 : updateCore s u true [] with ⟨r, s2, fs2⟩
    rw [hu2] at hcore
    have hr : r = PyResult.ret 0 := hcore.1
    subst hr
    have hrun : remove_user u false [(region, s)] [] =
        (PyResult.ret 0, [(region, s2)], fs2) := by
      simp [remove_user, remove_user_go, fullDeleteStep,
        update_cyhy_ops_users, hu2, retCode]
    rw [hrun]
    refine ⟨rfl, ?_, ?_⟩
    · have hfr := storeGet_updateCore_ne s u true [] (SSM_SSH_KEY_PFX ++ u)
        (Ne.symm (roster_key_ne_cred_key u))
      rw [hu2] at hfr
      show storeGet s2 (SSM_SSH_KEY_PFX ++ u) = some kv
      rw [hfr]
      exact hcred
    · exact hcore.2

/-- Witness for C8's theorem at a concrete store holding a credential for
alice.smith and the roster "alice.smith,bob.jones". -/
theorem C8_full_removal_asymmetry_witness :
    (storeGet [(SSM_SSH_KEY_PFX ++ "alice.smith".data, "ssh-key".data),
        (SSM_CYHY_OPS_USERNAMES, "alice.smith,bob.jones".data)]
        (SSM_SSH_KEY_PFX ++ "alice.smith".data) = some "ssh-key".data ∧
      storeGet [(SSM_SSH_KEY_PFX ++ "alice.smith".data, "ssh-key".data),
        (SSM_CYHY_OPS_USERNAMES, "alice.smith,bob.jones".data)]
        SSM_CYHY_OPS_USERNAMES = some "alice.smith,bob.jones".data ∧
      "alice.smith".data ∈ pySplit ',' "alice.smith,bob.jones".data ∧
      nodupB (pySplit ',' "alice.smith,bob.jones".data) = true) ∧
    (((remove_user "alice.smith".data true
        [("us-east-1",
          [(SSM_SSH_KEY_PFX ++ "alice.smith".data, "ssh-key".data),
           (SSM_CYHY_OPS_USERNAMES, "alice.smith,bob.jones".data)])] []).1 =
        PyResult.ret 0 ∧
      storeGet (storeOf (remove_user "alice.smith".data true
        [("us-east-1",
          [(SSM_SSH_KEY_PFX ++ "alice.smith".data, "ssh-key".data),
           (SSM_CYHY_OPS_USERNAMES, "alice.smith,bob.jones".data)])] []).2.1)
        (SSM_SSH_KEY_PFX ++ "alice.smith".data) = none ∧
      "alice.smith".data ∉ rosterList (storeOf (remove_user "alice.smith".data
        true [("us-east-1",
          [(SSM_SSH_KEY_PFX ++ "alice.smith".data, "ssh-key".data),
           (SSM_CYHY_OPS_USERNAMES, "alice.smith,bob.jones".data)])] []).2.1)) ∧
    ((remove_user "alice.smith".data false
        [("us-east-1",
          [(SSM_SSH_KEY_PFX ++ "alice.smith".data, "ssh-key".data),
           (SSM_CYHY_OPS_USERNAMES, "alice.smith,bob.jones".data)])] []).1 =
        PyResult.ret 0 ∧
      storeGet (storeOf (remove_user "alice.smith".data false
        [("us-east-1",
          [(SSM_SSH_KEY_PFX ++ "alice.smith".data, "ssh-key".data),
           (SSM_CYHY_OPS_USERNAMES, "alice.smith,bob.jones".data)])] []).2.1)
        (SSM_SSH_KEY_PFX ++ "alice.smith".data) = some "ssh-key".data ∧
      "alice.smith".data ∉ rosterList (storeOf (remove_user "alice.smith".data
        false [("us-east-1",
          [(SSM_SSH_KEY_PFX ++ "alice.smith".data, "ssh-key".data),
           (SSM_CYHY_OPS_USERNAMES, "alice.smith,bob.jones".data)])] []).2.1))) :=
  ⟨⟨by decide, by decide, by decide, by decide⟩,
    C8_full_removal_asymmetry "us-east-1"
      [(SSM_SSH_KEY_PFX ++ "alice.smith".data, "ssh-key".data),
       (SSM_CYHY_OPS_USERNAMES, "alice.smith,bob.jones".data)]
      "alice.smith".data "ssh-key".data "alice.smith,bob.jones".data
      (by decide) (by decide) (by decide) (by decide)⟩

/-- C9: check_user only reads from the stores: for every username, region
list and fault schedule, the stores after check_user are exactly the input
stores. -/
theorem C9_check_user_readonly (u : PyStr) :
    ∀ (regions : List (String × Store)) (fs : List Fault),
      (check_user u regions fs).2.1 = regions := by
  intro regions
  induction regions with
  | nil =>
    intro fs
    rfl
  | cons p rest ih =>
    intro fs
    rcases p with ⟨region, store⟩
    rcases h1 : ssmGet store (SSM_SSH_KEY_PFX ++ u) fs with ⟨g1, fs1⟩
    cases g1
    case clientError => simp [check_user, h1]
    all_goals (
      rcases h2 : ssmGet store SSM_CYHY_OPS_USERNAMES fs1 with ⟨g2, fs2⟩
      cases g2
      case clientError => simp [check_user, h1, h2]
      all_goals simp [check_user, h1, h2, ih fs2])

/-- C10: when the stored roster value is the empty string, the code parses
it as the one-element list containing the empty username; AddUser(u) on
that state returns 0 and writes back the roster value ","++u (a leading
empty entry), and RemoveUser(u, full=false) on that state writes the empty
string back, leaving the roster key present rather than deleting it. -/
theorem C10_empty_string_roster (region : String) (s : Store) (u k : PyStr)
    (ow : Bool) (hne : u ≠ [])
    (hros : storeGet s SSM_CYHY_OPS_USERNAMES = some []) :
    pySplit ',' [] = [[]] ∧
    (add_user u k ow [(region, s)] []).1 = PyResult.ret 0 ∧
    storeGet (storeOf (add_user u k ow [(region, s)] []).2.1)
      SSM_CYHY_OPS_USERNAMES = some (',' :: u) ∧
    storeGet (storeOf (remove_user u false [(region, s)] []).2.1)
      SSM_CYHY_OPS_USERNAMES = some [] := by
  have hmB : memB u [[]] = false := by
    simp [memB, hne]
  have hsplit0 : pySplit ',' ([] : PyStr) = [[]] := rfl
  refine ⟨rfl, ?_⟩
  rcases hp : putOutcome s (SSM_SSH_KEY_PFX ++ u) k ow with ⟨pr, s1⟩
  have hcases : s1 = s ∨ s1 = storePut s (SSM_SSH_KEY_PFX ++ u) k := by
    unfold putOutcome at hp
    by_cases hb : (!ow && (storeGet s (SSM_SSH_KEY_PFX ++ u)).isSome) = true
    · rw [if_pos hb] at hp
      injection hp with h1 h2
      exact Or.inl h2.symm
    · rw [if_neg hb] at hp
      injection hp with h1 h2
      exact Or.inr h2.symm
  have hprne : pr ≠ PutRes.clientError := by
    unfold putOutcome at hp
    by_cases hb : (!ow && (storeGet s (SSM_SSH_KEY_PFX ++ u)).isSome) = true
    · rw [if_pos hb] at hp
      injection hp with h1 h2
      rw [← h1]
      intro hc
      cases hc
    · rw [if_neg hb] at hp
      injection hp with h1 h2
      rw [← h1]
      intro hc
      cases hc
  have hros1 : storeGet s1 SSM_CYHY_OPS_USERNAMES = some [] := by
    rcases hcases with hc | hc
    · rw [hc]
      exact hros
    · rw [hc, storeGet_storePut_ne s _ _ _ (roster_key_ne_cred_key u)]
      exact hros
  have hupd : updateCore s1 u false [] =
      (PyResult.ret 0,
        storePut s1 SSM_CYHY_OPS_USERNAMES (',' :: u), []) := by
    unfold updateCore
    simp only [getOutcome, hros1]
    simp [reconcile, hsplit0, hmB, writeBack, ssmPut, putOutcome, pyJoin]
  have haddEq : add_user u k ow [(region, s)] [] =
      (PyResult.ret 0,
        [(region, storePut s1 SSM_CYHY_OPS_USERNAMES (',' :: u))], []) := by
    simp [add_user, add_user_go, ssmPut, hp, hprne, update_cyhy_ops_users,
      hupd, retCode]
  have hupd2 : updateCore s u true [] =
      (PyResult.unboundLocal, storePut s SSM_CYHY_OPS_USERNAMES [], []) := by
    unfold updateCore
    simp only [getOutcome, hros]
    simp [reconcile, hsplit0, hmB, writeBack, ssmPut, putOutcome, pyJoin]
  have hremEq : remove_user u false [(region, s)] [] =
      (PyResult.unboundLocal,
        [(region, storePut s SSM_CYHY_OPS_USERNAMES [])], []) := by
    simp [remove_user, remove_user_go, fullDeleteStep, update_cyhy_ops_users,
      hupd2]
  rw [haddEq, hremEq]
  refine ⟨rfl, ?_, ?_⟩
  · exact storeGet_storePut_self s1 SSM_CYHY_OPS_USERNAMES (',' :: u)
  · exact storeGet_storePut_self s SSM_CYHY_OPS_USERNAMES []

/-- Witness for C10's theorem at a concrete store whose roster value is the
empty string. -/
theorem C10_empty_string_roster_witness :
    ("alice.smith".data ≠ ([] : PyStr) ∧
      storeGet [(SSM_CYHY_OPS_USERNAMES, [])] SSM_CYHY_OPS_USERNAMES
        = some [] ) ∧
    (pySplit ',' [] = [[]] ∧
      (add_user "alice.smith".data "ssh-key".data false
        [("us-east-1", [(SSM_CYHY_OPS_USERNAMES, [])])] []).1 =
        PyResult.ret 0 ∧
      storeGet (storeOf (add_user "alice.smith".data "ssh-key".data false
        [("us-east-1", [(SSM_CYHY_OPS_USERNAMES, [])])] []).2.1)
        SSM_CYHY_OPS_USERNAMES = some (',' :: "alice.smith".data) ∧
      storeGet (storeOf (remove_user "alice.smith".data false
        [("us-east-1", [(SSM_CYHY_OPS_USERNAMES, [])])] []).2.1)
        SSM_CYHY_OPS_USERNAMES = some []) :=
  ⟨⟨by decide, by decide⟩,
    C10_empty_string_roster "us-east-1" [(SSM_CYHY_OPS_USERNAMES, [])]
      "alice.smith".data "ssh-key".data false
      (by decide) (by decide)⟩

end CyhyOps
